import Mathlib

/-!
# Verification of the dynparser PEG engine

Shallow embedding of the dynparser repository (a dynamic PEG parsing
engine written in Rust) and proofs about its evaluators.

The repository holds two generations of code:

* the current generation in `src/parser/expression/mod.rs` (the
  trampolined expression evaluator: `parse_or`, `parse_and`, `parse_not`,
  `parse_repeat`, `parse_rule_name`, driven by `tail_call`) together with
  `src/peg/mod.rs` (the AST to rules compiler);
* an earlier generation in `src/atom.rs`, `src/expression.rs` and
  `src/lib.rs` (`parse_literal`, `parse_dot`, `deep_error`).

Both are embedded here.  The companion modules `src/parser/mod.rs`,
`src/parser/atom.rs` and `src/ast.rs` of the current generation are not
part of the repository snapshot; the few definitions needed from them
(`Status`, `Error`, the atom evaluator, the AST `Node` with `compact` and
`prune`) are modelled from the specification and are marked as such in
their doc comments.

Machine integers (`usize`, `u32`) are modelled as `Nat`: none of the
embedded code can overflow them on the inputs the theorems quantify over,
and the source performs no wrapping arithmetic.

Rust strings are modelled as `List Char` (the sequence of scalar
characters); where the source uses the *byte* length of a string
(`String::len`) the embedding uses `utf8Len`, the sum of the UTF-8 sizes
of the characters.
-/

namespace Dynparser

/-- Position inside the parsed text.  Field layout from the old
generation debug output in `src/lib.rs` (`Possition { n, col, row }`);
the spec describes the same three counters.  The source's (sic) spelling
`Possition` is kept. -/
structure Possition where
  n : Nat
  col : Nat
  row : Nat
deriving DecidableEq, Repr

/-- UTF-8 byte length of a character sequence: this is what Rust's
`String::len` (and `str::len`) return. -/
def utf8Len (l : List Char) : Nat :=
  (l.map Char.utf8Size).sum

--------------------------------------------------------------------
--  Old generation: `src/atom.rs`
--------------------------------------------------------------------

/-- Embeds `parse_literal` from `src/atom.rs` (lines 29-46).  The source
computes `self_len = s.len()` (the *byte* length of the literal), takes
that many *characters* of the input starting at `pars_pos.n`, compares
the result with the literal, and on equality advances both `n` and
`col` by `self_len`; `row` is never touched. -/
def parse_literal (text2parse : List Char) (s : List Char)
    (pars_pos : Possition) : Except String Possition :=
  let self_len := utf8Len s
  let in_text := (text2parse.drop pars_pos.n).take self_len
  if s = in_text then
    Except.ok { pars_pos with n := pars_pos.n + self_len,
                              col := pars_pos.col + self_len }
  else
    Except.error "error parsing"

/-- Embeds `parse_dot` from `src/atom.rs` (lines 48-59).  The guard compares
`pars_pos.n` with `text2parse.string().len()` — the *byte* length of
the input. -/
def parse_dot (text2parse : List Char)
    (pars_pos : Possition) : Except String Possition :=
  if pars_pos.n < utf8Len text2parse then
    Except.ok { pars_pos with n := pars_pos.n + 1, col := pars_pos.col + 1 }
  else
    Except.error "expected any char on end of file"

--------------------------------------------------------------------
--  Current generation: types of `src/parser/mod.rs` (absent from src/)
--------------------------------------------------------------------

/-- Modelled from the spec: `Status` is "a cursor into parsing —
references the input text, the active rule set, and the current
Position" (`src/parser/mod.rs` is absent from the snapshot).  Since the
text and the rule set never change during a parse they are threaded as
separate parameters of the evaluator, and the status record keeps only
the position. -/
structure Status where
  pos : Possition
deriving DecidableEq, Repr

/-- Modelled from the spec: an `Error` bundles the failure position and
a human readable description (`src/parser/mod.rs` is absent from the
snapshot; the usage in `src/parser/expression/mod.rs` — `e.pos.n`,
`Error::from_status(&status, descr)` — fixes this shape). -/
structure Error where
  pos : Possition
  descr : String
deriving DecidableEq, Repr

/-- Embeds `Error::from_status` as used by `src/parser/expression/mod.rs`:
an error at the status's position with the given description. -/
def Error.from_status (st : Status) (d : String) : Error :=
  { pos := st.pos, descr := d }

/-- Result of one evaluator step.  `ok`/`err` mirror the source's
`Result<Status, Error>`; `timeout` is the fuel artifact of the
embedding (the source loops instead); `panicked` models a Rust panic
(the `expect` in `parse_or`). -/
inductive PResult where
  | ok : Status → PResult
  | err : Error → PResult
  | timeout : PResult
  | panicked : PResult
deriving DecidableEq, Repr

--------------------------------------------------------------------
--  Current generation: atoms (`src/parser/atom.rs`, absent from src/)
--------------------------------------------------------------------

/-- Modelled from the spec: the `Atom` variants `Literal(string)`,
`Dot` and `Match(class)`, the class being "a set of individual
characters plus a list of inclusive `(lo,hi)` character ranges"
(`src/parser/atom.rs` is absent from the snapshot). -/
inductive Atom where
  | literal : List Char → Atom
  | dot : Atom
  | cls : List Char → List (Char × Char) → Atom
deriving Repr

/-- Modelled from the spec: advancing a Position over one scalar
character — "newline resets `col` to 0 and increments `row`". -/
def advanceChar (pos : Possition) (c : Char) : Possition :=
  if c = '\n' then { n := pos.n + 1, col := 0, row := pos.row + 1 }
  else { n := pos.n + 1, col := pos.col + 1, row := pos.row }

/-- Modelled from the spec: matching a literal character for character
("succeed iff input starting at `S.pos.n` equals `lit` char-for-char;
advance Position by `len(lit)` characters, updating row/col per
newlines contained in `lit`. Error kind `LiteralMismatch`").  The
failure position is the first disagreeing offset, per the spec's
scenario "input `\"help\"` ⇒ Err at pos.n=3". -/
def literalWalk (txt : List Char) : List Char → Possition → PResult
  | [], pos => .ok { pos := pos }
  | c :: rest, pos =>
    match txt[pos.n]? with
    | some c2 =>
      if c2 = c then literalWalk txt rest (advanceChar pos c2)
      else .err { pos := pos, descr := "LiteralMismatch" }
    | none => .err { pos := pos, descr := "LiteralMismatch" }

/-- Modelled from the spec: class membership — "the next character is
in the class's explicit set OR within any inclusive range". -/
def inClass (c : Char) (chars : List Char) (ranges : List (Char × Char)) : Bool :=
  chars.contains c || ranges.any (fun r => r.1 ≤ c && c ≤ r.2)

/-- Modelled from the spec: the atom evaluator of the current
generation (`src/parser/atom.rs` is absent from the snapshot);
dispatches per §4.1 of the spec. -/
def atomParse (txt : List Char) (a : Atom) (st : Status) : PResult :=
  match a with
  | .literal l => literalWalk txt l st.pos
  | .dot =>
    match txt[st.pos.n]? with
    | some c => .ok { pos := advanceChar st.pos c }
    | none => .err { pos := st.pos, descr := "UnexpectedEOF" }
  | .cls chars ranges =>
    match txt[st.pos.n]? with
    | some c =>
      if inClass c chars ranges then .ok { pos := advanceChar st.pos c }
      else .err { pos := st.pos, descr := "ClassMismatch" }
    | none => .err { pos := st.pos, descr := "ClassMismatch" }

--------------------------------------------------------------------
--  Current generation: expressions (`src/parser/expression/mod.rs`)
--------------------------------------------------------------------

/-- Embeds `Expression` from `src/parser/expression/mod.rs`.  The `MultiExpr`
newtype around `Vec<Expression>`, the `RepInfo` record and the `NRep`
newtype around `usize` are flattened into the constructors. -/
inductive Expression where
  | simple : Atom → Expression
  | andE : List Expression → Expression
  | orE : List Expression → Expression
  | notE : Expression → Expression
  | repeatE : Expression → Nat → Option Nat → Expression
  | ruleName : String → Expression
deriving Repr

/-- Embeds `SetOfRules` from `src/parser/expression/mod.rs`: a map from rule
names to expressions (the source uses a `HashMap`; an association list
with first-match lookup models it, `add` inserting at the front). -/
def SetOfRules := List (String × Expression)

/-- Embeds `HashMap::get` on the rule set. -/
def rulesGet (rs : SetOfRules) (rule_name : String) : Option Expression :=
  List.lookup rule_name rs

/-- The `deep_err` closure inside `parse_or`
(`src/parser/expression/mod.rs` lines 167-174): keep the accumulated
error when its position is strictly greater, otherwise take the new
one; an absent accumulator is replaced by the new error. -/
def deep_err (oe1 : Option Error) (e2 : Error) : Option Error :=
  match oe1 with
  | some e1 => if e1.pos.n > e2.pos.n then some e1 else some e2
  | none => some e2

/-- The `tail_call` loop of `parse_and`: thread the status through the
children left to right, aborting on the first failure.  `p` is the
recursive entry into the expression evaluator (`parse_expr` in the
source; the `Started` component of `parse_expr`'s result is dropped by
`parse_and` and is not modelled). -/
def parseAndAux (p : Expression → Status → PResult) :
    List Expression → Status → PResult
  | [], st => .ok st
  | e :: rest, st =>
    match p e st with
    | .ok st2 => parseAndAux p rest st2
    | r => r

/-- The `tail_call` loop of `parse_or`
(`src/parser/expression/mod.rs` lines 166-188): try the children left
to right with the same status, returning the first success; failures
are merged through `deep_err`.  With no children left the accumulated
error is unwrapped by `expect(...)`: on an empty accumulator this is a
panic. -/
def parseOrAux (p : Expression → Status → PResult) :
    List Expression → Option Error → Status → PResult
  | [], some e, _ => .err e
  | [], none, _ => .panicked
  | e :: rest, acc, st =>
    match p e st with
    | .ok st2 => .ok st2
    | .err er => parseOrAux p rest (deep_err acc er) st
    | .timeout => .timeout
    | .panicked => .panicked

/-- The `touch_max_bound` closure of `parse_repeat`: with a max `m` the
bound is touched when `counter + 1 == m`; without a max, never. -/
def touchMaxBound (omax : Option Nat) (counter : Nat) : Bool :=
  match omax with
  | some m => counter + 1 = m
  | none => false

/-- The `tail_call` loop of `parse_repeat`
(`src/parser/expression/mod.rs` lines 199-215), with the source's four
match arms on (inner result, `big_min_bound counter`,
`touch_max_bound counter`).  `p` evaluates the repeated inner
expression; the first `Nat` argument is the embedding's iteration fuel
(the source loops unboundedly). -/
def repeatLoopAux (p : Status → PResult) (mn : Nat) (mx : Option Nat) :
    Nat → Status → Nat → PResult
  | 0, _, _ => .timeout
  | Nat.succ g, st, i =>
    match p st, decide (mn ≤ i), touchMaxBound mx i with
    | .err _, true, _ => .ok st
    | .err _, false, _ => .err (Error.from_status st "repeat")
    | .ok st2, _, false => repeatLoopAux p mn mx g st2 (i + 1)
    | .ok st2, _, true => .ok st2
    | .timeout, _, _ => .timeout
    | .panicked, _, _ => .panicked

/-- Embeds `parse_rule_name` from `src/parser/expression/mod.rs` (lines
139-146): look the name up in the rule set, failing with a
"Missing rule" error, and otherwise evaluate the found expression
under the same status (`p` is the recursive entry, `parse_partial` in
the source). -/
def parseRuleNameAux (p : Expression → Status → PResult)
    (rs : SetOfRules) (rule_name : String) (st : Status) : PResult :=
  match rulesGet rs rule_name with
  | none => .err (Error.from_status st ("Missing rule: " ++ rule_name))
  | some e => p e st

/-- Embeds `parse_partial` from `src/parser/expression/mod.rs` (the name is
shortened in the embedding): dispatch on the expression variant.  The
first argument is fuel: every recursive entry into the evaluator
consumes one unit, and exhaustion yields `PResult.timeout` (the fuel is
an artifact of the embedding; the source recurses and loops
directly). -/
def parsePart : Nat → SetOfRules → List Char → Expression → Status → PResult
  | 0, _, _, _, _ => .timeout
  | Nat.succ f, rs, txt, e, st =>
    match e with
    | .simple a => atomParse txt a st
    | .andE es => parseAndAux (fun e2 s => parsePart f rs txt e2 s) es st
    | .orE es => parseOrAux (fun e2 s => parsePart f rs txt e2 s) es none st
    | .notE e1 =>
      match parsePart f rs txt e1 st with
      | .ok _ => .err (Error.from_status st "not")
      | .err _ => .ok st
      | .timeout => .timeout
      | .panicked => .panicked
    | .repeatE e1 mn mx =>
      repeatLoopAux (fun s => parsePart f rs txt e1 s) mn mx (Nat.succ f) st 0
    | .ruleName name =>
      parseRuleNameAux (fun e2 s => parsePart f rs txt e2 s) rs name st

--------------------------------------------------------------------
--  Old generation: error merging (`src/lib.rs`)
--------------------------------------------------------------------

/-- Modelled from the spec: the ordering of `Possition` — "Ordered by
`n`" — used by `deep_error` through `error.pos.cmp(&err2.pos)` (the old
generation `src/parser.rs`, where the `Ord` instance lives, is absent
from the snapshot). -/
def posCmp (p1 p2 : Possition) : Ordering :=
  if p1.n < p2.n then Ordering.lt
  else if p2.n < p1.n then Ordering.gt
  else Ordering.eq

/-- Embeds `deep_error` from `src/lib.rs` (lines 90-104): keep the error with
the greater position; on equal positions keep the first error's
position and concatenate both descriptions (`format!("{} {}", ...)`);
an absent first error is replaced by the second. -/
def deep_error (err1 : Option Error) (err2 : Error) : Error :=
  match err1 with
  | some e =>
    match posCmp e.pos err2.pos with
    | Ordering.eq => { e with descr := e.descr ++ " " ++ err2.descr }
    | Ordering.gt => e
    | Ordering.lt => err2
  | none => err2

--------------------------------------------------------------------
--  AST nodes (`src/ast.rs`, absent from src/) and the peg compiler
--  (`src/peg/mod.rs`)
--------------------------------------------------------------------

/-- Modelled from the spec and the patterns in `src/peg/mod.rs`: the
AST node — `Rule((name, nodes))`, `Val(string)`, and an `EOF` marker
(`src/ast.rs` is absent from the snapshot). -/
inductive Node where
  | rule : String → List Node → Node
  | val : String → Node
  | eof : Node
deriving Repr

/-- Modelled from the spec: the merge step of `compact` — "merges
adjacent `Val` siblings under the same parent into a single `Val`
whose text is concatenation". -/
def mergeVals : List Node → List Node
  | [] => []
  | Node.val a :: rest =>
    match mergeVals rest with
    | Node.val b :: rest2 => Node.val (a ++ b) :: rest2
    | r => Node.val a :: r
  | n :: rest => n :: mergeVals rest

mutual

/-- Modelled from the spec: `compact()` — "Recurse into children
first, then merge at each level" (`src/ast.rs` is absent from the
snapshot). -/
def Node.compact : Node → Node
  | .rule name children => .rule name (mergeVals (compactList children))
  | n => n

/-- The function `compact` mapped over a child list. -/
def compactList : List Node → List Node
  | [] => []
  | n :: rest => n.compact :: compactList rest

end

mutual

/-- Modelled from the spec: `prune(names)` — "removes `Rule` nodes
whose name is in the supplied set, *hoisting* their children into the
position of the pruned node" (`src/ast.rs` is absent from the
snapshot). -/
def Node.prune (names : List String) : Node → Node
  | .rule nm children => .rule nm (pruneList names children)
  | n => n

/-- The function `prune` on a child list, hoisting the children of pruned nodes. -/
def pruneList (names : List String) : List Node → List Node
  | [] => []
  | Node.rule nm children :: rest =>
    if nm ∈ names then pruneList names children ++ pruneList names rest
    else Node.rule nm (pruneList names children) :: pruneList names rest
  | n :: rest => n :: pruneList names rest

end

/-- Embeds `ExprOrRule` from `src/peg/mod.rs`: the peg compiler's
intermediate result, an expression or a whole rule set. -/
inductive ExprOrRule where
  | expr : Expression → ExprOrRule
  | rul : SetOfRules → ExprOrRule

/-- The `check_quote` closure of `atom_literal_from_nodes` in
`src/peg/mod.rs` (the `{:?}`/`{}` debug payloads of the error strings
are abbreviated). -/
def check_quote : Node → Except String Unit
  | Node.val v =>
    if v = "\"" then Except.ok ()
    else Except.error "Expected quote arround literal string"
  | _ => Except.error "Expected ast::Node::Val arround literal string"

/-- The `concat_str_nodes2string` closure of `atom_literal_from_nodes`
in `src/peg/mod.rs`: left fold concatenating `Val` children, failing
on anything else. -/
def concat_str_nodes2string (nodes : List Node) : Except String String :=
  nodes.foldlM
    (fun acc n =>
      match n with
      | Node.val v => Except.ok (acc ++ v)
      | _ => Except.error "Expected ast::Node::Val")
    ""

/-- Embeds `atom_literal_from_nodes` from `src/peg/mod.rs`: strip the quote
`Val`s around the literal, concatenate the rest, and emit
`Simple(Literal(...))`. -/
def atom_literal_from_nodes (nodes : List Node) : Except String Expression :=
  match nodes with
  | [] => Except.error "Invalid ast for literal. Minimum nodes size 3"
  | f :: rest =>
    match rest.getLast? with
    | none => Except.error "Invalid ast for literal. Minimum nodes size 3"
    | some l =>
      match check_quote f with
      | Except.error e => Except.error e
      | Except.ok _ =>
        match check_quote l with
        | Except.error e => Except.error e
        | Except.ok _ =>
          match concat_str_nodes2string rest.dropLast with
          | Except.error e => Except.error e
          | Except.ok slit =>
            Except.ok (Expression.simple (Atom.literal slit.toList))

/-- Embeds `process_atom` from `src/peg/mod.rs`: an atom node has exactly one
`Rule` child, dispatched on its name (only `literal` is wired up in
the source; every other kind falls into "not registered"). -/
def process_atom (nodes : List Node) : Except String Expression :=
  match nodes with
  | [Node.rule rname cnodes] =>
    match rname with
    | "literal" => atom_literal_from_nodes cnodes
    | _ => Except.error ("not registered atom type " ++ rname)
  | [_] => Except.error "incorrect atom info in ast"
  | _ => Except.error "an atom can have only one child"

/-- Embeds `process_rule` from `src/peg/mod.rs` (lines 86-100).  The body is
a stub: it ignores the rule's `symbol` and `expr` children and always
registers `rules!("main" => lit!("testing"))` (the real extraction is
commented out in the source). -/
def process_rule (_nodes : List Node) : Except String ExprOrRule :=
  Except.ok (ExprOrRule.rul
    [("main", Expression.simple (Atom.literal "testing".toList))])

mutual

/-- Embeds `process_node` from `src/peg/mod.rs`: only `Rule` nodes are
processed. -/
def process_node : Node → Except String ExprOrRule
  | Node.rule rname nodes => process_peg_rule rname nodes
  | _ => Except.error "ERROR TESTING AST"

/-- Embeds `process_peg_rule` from `src/peg/mod.rs`: dispatch on the peg rule
name; errors get the `processing <name> > ...` context prepended
(`or_else` in the source). -/
def process_peg_rule (rname : String) (nodes : List Node) :
    Except String ExprOrRule :=
  let r :=
    match rname with
    | "main" => passthrow nodes
    | "grammar" => passthrow nodes
    | "rule" => process_rule nodes
    | "expr" => passthrow nodes
    | "or" => passthrow nodes
    | "and" => passthrow nodes
    | "rep_or_neg" => passthrow nodes
    | "atom_or_par" => passthrow nodes
    | "atom" =>
      match process_atom nodes with
      | Except.ok e => Except.ok (ExprOrRule.expr e)
      | Except.error e => Except.error e
    | _ => Except.error ("unknown peg rule " ++ rname)
  match r with
  | Except.error e => Except.error ("processing " ++ rname ++ " > " ++ e)
  | ok => ok

/-- Embeds `passthrow` from `src/peg/mod.rs`: a pass-through node must have
exactly one child. -/
def passthrow : List Node → Except String ExprOrRule
  | [node] => process_node node
  | _ => Except.error "passthrow can have only one child node"

end

/-- The final `match` of `rules_from_ast` in `src/peg/mod.rs` (split
into its own definition): wrap a bare expression into a `maina` rule,
pass a rule set through. -/
def wrapExprOrRule : Except String ExprOrRule → Except String SetOfRules
  | Except.ok (ExprOrRule.expr e) => Except.ok [("maina", e)]
  | Except.ok (ExprOrRule.rul r) => Except.ok r
  | Except.error e => Except.error e

/-- Embeds `rules_from_ast` from `src/peg/mod.rs`: compact and prune the AST
(dropping `_` nodes), process it, and wrap the result (the source's
`ErrPegAst::Ast` wrapper is collapsed into the error string). -/
def rules_from_ast (ast : Node) : Except String SetOfRules :=
  wrapExprOrRule (process_node (Node.prune ["_"] ast.compact))

--------------------------------------------------------------------
--  Shared helper lemmas
--------------------------------------------------------------------

/-- Helper: `deep_err` always yields an accumulated error. -/
theorem deep_err_ne_none (oe1 : Option Error) (e2 : Error) :
    deep_err oe1 e2 ≠ none := by
  cases oe1 <;> simp [deep_err]
  split <;> simp

--------------------------------------------------------------------
--  C4: the Not evaluator
--------------------------------------------------------------------

/-- C4: for every expression `e` and status `st`, `parse_not` returns
the input status unchanged when `e` fails at `st`, and returns an
error when `e` succeeds at `st` (`src/parser/expression/mod.rs`
lines 191-196). -/
theorem not_evaluator_spec (f : Nat) (rs : SetOfRules) (txt : List Char)
    (e : Expression) (st : Status) :
    ((∃ er, parsePart f rs txt e st = PResult.err er) →
      parsePart (f + 1) rs txt (Expression.notE e) st = PResult.ok st) ∧
    (∀ st2, parsePart f rs txt e st = PResult.ok st2 →
      ∃ er, parsePart (f + 1) rs txt (Expression.notE e) st = PResult.err er) := by
  constructor
  · rintro ⟨er, h⟩
    simp [parsePart, h]
  · intro st2 h
    exact ⟨Error.from_status st "not", by simp [parsePart, h]⟩

/-- Witness for C4: `Not("a")` on input `"b"` (inner fails) returns
the unchanged status; on input `"a"` (inner succeeds) it errors. -/
theorem not_evaluator_spec_witness :
    parsePart 4 [] "b".toList
      (Expression.notE (Expression.simple (Atom.literal ['a']))) ⟨⟨0, 0, 0⟩⟩ =
      PResult.ok ⟨⟨0, 0, 0⟩⟩ ∧
    (∃ er, parsePart 4 [] "a".toList
      (Expression.notE (Expression.simple (Atom.literal ['a']))) ⟨⟨0, 0, 0⟩⟩ =
      PResult.err er) := by
  constructor
  · exact (not_evaluator_spec 3 [] "b".toList
      (Expression.simple (Atom.literal ['a'])) ⟨⟨0, 0, 0⟩⟩).1
      ⟨{ pos := ⟨0, 0, 0⟩, descr := "LiteralMismatch" }, by decide⟩
  · exact (not_evaluator_spec 3 [] "a".toList
      (Expression.simple (Atom.literal ['a'])) ⟨⟨0, 0, 0⟩⟩).2
      ⟨⟨1, 1, 0⟩⟩ (by decide)

--------------------------------------------------------------------
--  C8: the RuleName evaluator
--------------------------------------------------------------------

/-- C8: evaluating `RuleName(name)` fails with a missing-rule error
when `name` is absent from the rule set, and otherwise returns exactly
the result of evaluating the referenced expression under the same
status (`src/parser/expression/mod.rs` lines 139-146). -/
theorem rule_name_evaluator_spec (f : Nat) (rs : SetOfRules)
    (txt : List Char) (name : String) (st : Status) :
    (rulesGet rs name = none →
      parsePart (f + 1) rs txt (Expression.ruleName name) st =
        PResult.err (Error.from_status st ("Missing rule: " ++ name))) ∧
    (∀ e, rulesGet rs name = some e →
      parsePart (f + 1) rs txt (Expression.ruleName name) st =
        parsePart f rs txt e st) := by
  constructor
  · intro h
    simp [parsePart, parseRuleNameAux, h]
  · intro e h
    simp [parsePart, parseRuleNameAux, h]

/-- Witness for C8: a one-rule set, queried at a missing name and at
the present name. -/
theorem rule_name_evaluator_spec_witness :
    parsePart 4 [("main", Expression.simple (Atom.literal ['a']))] "a".toList
      (Expression.ruleName "x") ⟨⟨0, 0, 0⟩⟩ =
      PResult.err { pos := ⟨0, 0, 0⟩, descr := "Missing rule: x" } ∧
    parsePart 4 [("main", Expression.simple (Atom.literal ['a']))] "a".toList
      (Expression.ruleName "main") ⟨⟨0, 0, 0⟩⟩ =
      parsePart 3 [("main", Expression.simple (Atom.literal ['a']))] "a".toList
        (Expression.simple (Atom.literal ['a'])) ⟨⟨0, 0, 0⟩⟩ := by
  constructor
  · exact (rule_name_evaluator_spec 3
      [("main", Expression.simple (Atom.literal ['a']))] "a".toList "x" ⟨⟨0, 0, 0⟩⟩).1 rfl
  · exact (rule_name_evaluator_spec 3
      [("main", Expression.simple (Atom.literal ['a']))] "a".toList "main" ⟨⟨0, 0, 0⟩⟩).2
      (Expression.simple (Atom.literal ['a'])) rfl

--------------------------------------------------------------------
--  C10: Or with an empty alternative list
--------------------------------------------------------------------

/-- Counterexample to C10: evaluating an `Or` with an *empty* list of
alternatives reaches the `expect` on the `None` accumulator and
panics — it does not return a structured error. -/
theorem or_empty_panics_counterexample :
    parsePart 5 [] "a".toList (Expression.orE []) ⟨⟨0, 0, 0⟩⟩ =
      PResult.panicked := by decide

/-- Helper for C10: `parse_or`'s loop cannot panic once the
accumulator is populated or an alternative remains, as long as no
alternative's own evaluation panics. -/
theorem parseOrAux_no_panic (p : Expression → Status → PResult) (st : Status) :
    ∀ (es : List Expression) (acc : Option Error), (es = [] → acc ≠ none) →
    (∀ e ∈ es, p e st ≠ PResult.panicked) →
    parseOrAux p es acc st ≠ PResult.panicked := by
  intro es
  induction es with
  | nil =>
    intro acc h1 _h2
    match acc, h1 rfl with
    | some a, _ => simp [parseOrAux]
  | cons e rest ih =>
    intro acc _h1 h2
    have he : p e st ≠ PResult.panicked := h2 e (by simp)
    cases hp : p e st with
    | ok st2 => simp [parseOrAux, hp]
    | err er =>
      simp only [parseOrAux, hp]
      exact ih (deep_err acc er) (fun _ => deep_err_ne_none acc er)
        (fun e2 he2 => h2 e2 (by simp [he2]))
    | timeout => simp [parseOrAux, hp]
    | panicked => exact absurd hp he

/-- C10 amended: the `expect` in `parse_or` is only reached on an
empty alternative list (where the evaluator panics, see the
counterexample); with at least one alternative, `parse_or` never
panics provided no alternative's own evaluation panics. -/
theorem or_nonempty_no_panic (f : Nat) (rs : SetOfRules) (txt : List Char)
    (es : List Expression) (st : Status) :
    es ≠ [] →
    (∀ e ∈ es, parsePart f rs txt e st ≠ PResult.panicked) →
    parsePart (f + 1) rs txt (Expression.orE es) st ≠ PResult.panicked := by
  intro h1 h2
  simp only [parsePart]
  exact parseOrAux_no_panic (fun e2 s => parsePart f rs txt e2 s) st es none
    (fun he => absurd he h1) h2

/-- Witness for C10's amended theorem: a singleton alternative list. -/
theorem or_nonempty_no_panic_witness :
    parsePart 4 [] "a".toList
      (Expression.orE [Expression.simple (Atom.literal ['a'])]) ⟨⟨0, 0, 0⟩⟩ ≠
      PResult.panicked := by
  exact or_nonempty_no_panic 3 [] "a".toList
    [Expression.simple (Atom.literal ['a'])] ⟨⟨0, 0, 0⟩⟩ (by simp)
    (by intro e he
        simp only [List.mem_singleton] at he
        subst he
        decide)

--------------------------------------------------------------------
--  C7: error merging
--------------------------------------------------------------------

/-- Counterexample to C7: the `deep_err` closure of the trampolined
`parse_or` does *not* concatenate descriptions on equal positions — it
keeps only the second error, whose description does not contain the
first one. -/
theorem deep_err_tie_counterexample :
    deep_err (some { pos := ⟨0, 0, 0⟩, descr := "a" })
        { pos := ⟨0, 0, 0⟩, descr := "b" } =
      some { pos := ⟨0, 0, 0⟩, descr := "b" } ∧
    'a' ∉ ("b" : String).toList := by decide

/-- C7 amended: `deep_error` (`src/lib.rs`) behaves as the claim says:
greater position wins, equal positions keep the deepest position and
concatenate both descriptions, and `None` merged with `e` yields `e`.
The `deep_err` closure of `parse_or` shares the greater-position-wins
and `None + e = e` behaviour but on equal positions keeps the second
error unchanged (no concatenation); in all cases its result carries
the maximum of the two positions. -/
theorem error_merge_amended (e1 e2 : Error) :
    (deep_error none e2 = e2) ∧
    (e1.pos.n > e2.pos.n → deep_error (some e1) e2 = e1) ∧
    (e2.pos.n > e1.pos.n → deep_error (some e1) e2 = e2) ∧
    (e1.pos.n = e2.pos.n →
      deep_error (some e1) e2 =
        { pos := e1.pos, descr := e1.descr ++ " " ++ e2.descr }) ∧
    (deep_err none e2 = some e2) ∧
    (deep_err (some e1) e2 = some (if e1.pos.n > e2.pos.n then e1 else e2)) ∧
    (∀ e3, deep_err (some e1) e2 = some e3 →
      e3.pos.n = max e1.pos.n e2.pos.n) := by
  refine ⟨rfl, ?_, ?_, ?_, rfl, ?_, ?_⟩
  · intro h
    simp only [deep_error, posCmp]
    rw [if_neg (by omega), if_pos (by omega)]
  · intro h
    simp only [deep_error, posCmp]
    rw [if_pos h]
  · intro h
    simp only [deep_error, posCmp]
    rw [if_neg (by omega), if_neg (by omega)]
  · simp only [deep_err]
    split
    · simp
    · simp
  · intro e3 h
    simp only [deep_err] at h
    split at h <;> (cases h; omega)

/-- Witness for C7's amended theorem: concrete merges for the greater,
smaller and equal position cases of both merge functions. -/
theorem error_merge_amended_witness :
    deep_error (some { pos := ⟨3, 0, 0⟩, descr := "x" }) { pos := ⟨1, 0, 0⟩, descr := "y" } =
      { pos := ⟨3, 0, 0⟩, descr := "x" } ∧
    deep_error (some { pos := ⟨1, 0, 0⟩, descr := "x" }) { pos := ⟨3, 0, 0⟩, descr := "y" } =
      { pos := ⟨3, 0, 0⟩, descr := "y" } ∧
    deep_error (some { pos := ⟨2, 0, 0⟩, descr := "x" }) { pos := ⟨2, 5, 0⟩, descr := "y" } =
      { pos := ⟨2, 0, 0⟩, descr := "x y" } ∧
    (Option.getD
      (deep_err (some { pos := ⟨2, 0, 0⟩, descr := "x" }) { pos := ⟨7, 0, 0⟩, descr := "y" })
      { pos := ⟨0, 0, 0⟩, descr := "" }).pos.n = max 2 7 := by
  refine ⟨?_, ?_, ?_, ?_⟩
  · exact (error_merge_amended { pos := ⟨3, 0, 0⟩, descr := "x" }
      { pos := ⟨1, 0, 0⟩, descr := "y" }).2.1 (by decide)
  · exact (error_merge_amended { pos := ⟨1, 0, 0⟩, descr := "x" }
      { pos := ⟨3, 0, 0⟩, descr := "y" }).2.2.1 (by decide)
  · exact (error_merge_amended { pos := ⟨2, 0, 0⟩, descr := "x" }
      { pos := ⟨2, 5, 0⟩, descr := "y" }).2.2.2.1 rfl
  · have h := (error_merge_amended { pos := ⟨2, 0, 0⟩, descr := "x" }
      { pos := ⟨7, 0, 0⟩, descr := "y" }).2.2.2.2.2.2
      { pos := ⟨7, 0, 0⟩, descr := "y" } (by decide)
    exact h

--------------------------------------------------------------------
--  Byte-length arithmetic for the old atom evaluator
--------------------------------------------------------------------

/-- Byte length distributes over append. -/
theorem utf8Len_append (a b : List Char) :
    utf8Len (a ++ b) = utf8Len a + utf8Len b := by
  simp [utf8Len]

/-- Every character takes at least one byte, so the character count
bounds the byte length from below. -/
theorem length_le_utf8Len (l : List Char) : l.length ≤ utf8Len l := by
  induction l with
  | nil => simp [utf8Len]
  | cons c tl ih =>
    have hc := Char.utf8Size_pos c
    simp only [utf8Len, List.map_cons, List.sum_cons, List.length_cons]
    simp only [utf8Len] at ih
    omega

/-- Taking a prefix cannot increase the byte length. -/
theorem utf8Len_take_le (l : List Char) (k : Nat) :
    utf8Len (l.take k) ≤ utf8Len l := by
  conv_rhs => rw [← List.take_append_drop k l]
  rw [utf8Len_append]
  omega

/-- On a list of single-byte (ASCII) characters, byte length and
character count coincide. -/
theorem utf8Len_ascii (s : List Char) (h : ∀ c ∈ s, Char.utf8Size c = 1) :
    utf8Len s = s.length := by
  induction s with
  | nil => simp [utf8Len]
  | cons c tl ih =>
    have htl := ih (fun c2 hc2 => h c2 (by simp [hc2]))
    simp only [utf8Len, List.map_cons, List.sum_cons, List.length_cons]
    simp only [utf8Len] at htl
    rw [h c (by simp)]
    omega

--------------------------------------------------------------------
--  C5: the old literal atom
--------------------------------------------------------------------

/-- Success case of `parse_literal`: the comparison taken from the
source succeeds exactly when the `utf8Len s` characters taken from
`pos.n` equal the literal. -/
theorem parse_literal_eq_ok (text s : List Char) (pos : Possition)
    (h : (text.drop pos.n).take (utf8Len s) = s) :
    parse_literal text s pos =
      Except.ok ⟨pos.n + utf8Len s, pos.col + utf8Len s, pos.row⟩ := by
  simp only [parse_literal]
  rw [if_pos h.symm]

/-- Failure case of `parse_literal`. -/
theorem parse_literal_eq_error (text s : List Char) (pos : Possition)
    (h : (text.drop pos.n).take (utf8Len s) ≠ s) :
    parse_literal text s pos = Except.error "error parsing" := by
  simp only [parse_literal]
  rw [if_neg (fun hx => h hx.symm)]

/-- Counterexample to C5: the input `"é\nx"` starts with the literal
`"é\n"` character for character, so the claim demands success; but
`parse_literal` takes `lit.len()` = 3 *bytes* worth of characters
(here all three input characters), the comparison fails, and the atom
errors. -/
theorem parse_literal_counterexample :
    parse_literal ['é', '\n', 'x'] ['é', '\n'] ⟨0, 0, 0⟩ =
      Except.error "error parsing" ∧
    List.take 2 ['é', '\n', 'x'] = ['é', '\n'] :=
  ⟨rfl, rfl⟩

/-- C5 amended: `parse_literal` succeeds iff the literal equals the
`utf8Len lit` *characters* of the input taken from `pos.n`; on success
it advances `n` and `col` by the *byte* length of the literal and
leaves `row` unchanged — even when the literal contains newlines.  For
an all-ASCII literal (every character one byte) this means: success
exactly on a character-for-character prefix match, advancing `n` and
`col` by the character count, `row` untouched. -/
theorem parse_literal_amended (text s : List Char) (pos : Possition) :
    ((text.drop pos.n).take (utf8Len s) = s →
      parse_literal text s pos =
        Except.ok ⟨pos.n + utf8Len s, pos.col + utf8Len s, pos.row⟩) ∧
    ((text.drop pos.n).take (utf8Len s) ≠ s →
      parse_literal text s pos = Except.error "error parsing") ∧
    ((∀ c ∈ s, Char.utf8Size c = 1) →
      (parse_literal text s pos =
          Except.ok ⟨pos.n + s.length, pos.col + s.length, pos.row⟩ ↔
        s <+: text.drop pos.n)) := by
  refine ⟨parse_literal_eq_ok text s pos, parse_literal_eq_error text s pos, ?_⟩
  intro hascii
  have hlen : utf8Len s = s.length := utf8Len_ascii s hascii
  by_cases hc : (text.drop pos.n).take (utf8Len s) = s
  · rw [parse_literal_eq_ok text s pos hc, hlen]
    rw [hlen] at hc
    constructor
    · intro _
      rw [List.prefix_iff_eq_take]
      exact hc.symm
    · intro _
      rfl
  · rw [parse_literal_eq_error text s pos hc]
    rw [hlen] at hc
    constructor
    · intro h
      cases h
    · intro hpre
      exfalso
      rw [List.prefix_iff_eq_take] at hpre
      exact hc hpre.symm

/-- Witness for C5's amended theorem: the literal `"a\nb"` on input
`"a\nbc"` succeeds, advancing `n` and `col` by 3 and leaving `row` at
0 (no newline handling); on input `"a\nz"` it fails. -/
theorem parse_literal_amended_witness :
    parse_literal ['a', '\n', 'b', 'c'] ['a', '\n', 'b'] ⟨0, 0, 0⟩ =
      Except.ok ⟨3, 3, 0⟩ ∧
    parse_literal ['a', '\n', 'z'] ['a', '\n', 'b'] ⟨0, 0, 0⟩ =
      Except.error "error parsing" ∧
    (parse_literal ['a', 'b', 'c'] ['a', 'b'] ⟨0, 0, 0⟩ =
        Except.ok ⟨2, 2, 0⟩ ↔ ['a', 'b'] <+: ['a', 'b', 'c']) := by
  refine ⟨?_, ?_, ?_⟩
  · exact (parse_literal_amended ['a', '\n', 'b', 'c'] ['a', '\n', 'b'] ⟨0, 0, 0⟩).1
      (by decide)
  · exact (parse_literal_amended ['a', '\n', 'z'] ['a', '\n', 'b'] ⟨0, 0, 0⟩).2.1
      (by decide)
  · exact (parse_literal_amended ['a', 'b', 'c'] ['a', 'b'] ⟨0, 0, 0⟩).2.2
      (by decide)

--------------------------------------------------------------------
--  C6: atom success bounds and the dot atom
--------------------------------------------------------------------

/-- Counterexample to C6: on the one-character input `"é"` at
`n = 1`, the claim demands that `Dot` fail (`1 < 1` is false in
scalar characters) and that successful positions stay `≤ 1`; but
`parse_dot` guards against the *byte* length 2, succeeds, and returns
`n = 2`, exceeding the character count. -/
theorem parse_dot_counterexample :
    parse_dot ['é'] ⟨1, 0, 0⟩ = Except.ok ⟨2, 1, 0⟩ ∧
    List.length ['é'] = 1 :=
  ⟨rfl, rfl⟩

/-- C6 amended: both old atoms measure the input in *bytes*, not
scalar characters.  `Dot` succeeds iff `n` is below the byte length of
the input and consumes exactly one byte position; on success its `n`
stays within the byte length.  A successful `parse_literal` whose
starting `n` is at most the character count also stays within the
byte length of the input. -/
theorem atom_bound_amended (text s : List Char) (pos : Possition) :
    (pos.n < utf8Len text →
      parse_dot text pos = Except.ok ⟨pos.n + 1, pos.col + 1, pos.row⟩) ∧
    (utf8Len text ≤ pos.n →
      parse_dot text pos = Except.error "expected any char on end of file") ∧
    (∀ p2, parse_dot text pos = Except.ok p2 → p2.n ≤ utf8Len text) ∧
    (pos.n ≤ text.length →
      ∀ p2, parse_literal text s pos = Except.ok p2 → p2.n ≤ utf8Len text) := by
  refine ⟨?_, ?_, ?_, ?_⟩
  · intro h
    simp [parse_dot, h]
  · intro h
    simp only [parse_dot]
    rw [if_neg (by omega)]
  · intro p2 h
    simp only [parse_dot] at h
    split at h
    · cases h
      simp only
      omega
    · cases h
  · intro hn p2 h
    simp only [parse_literal] at h
    split at h
    · next hs =>
      cases h
      have h1 : utf8Len s ≤ utf8Len (text.drop pos.n) := by
        have heq : utf8Len s = utf8Len ((text.drop pos.n).take (utf8Len s)) :=
          congrArg utf8Len hs
        rw [heq]
        exact utf8Len_take_le (text.drop pos.n) (utf8Len s)
      have h2 : pos.n ≤ utf8Len (text.take pos.n) := by
        have hl := length_le_utf8Len (text.take pos.n)
        rw [List.length_take] at hl
        omega
      have h3 : utf8Len (text.take pos.n) + utf8Len (text.drop pos.n) =
          utf8Len text := by
        rw [← utf8Len_append, List.take_append_drop]
      simp only
      omega
    · cases h

/-- Witness for C6's amended theorem: the input `"éz"` (3 bytes, 2
characters).  Dot at `n = 0` consumes one byte position; at `n = 3`
(the byte length) it fails; a successful literal at `n = 0 ≤ 2`
lands within the byte length. -/
theorem atom_bound_amended_witness :
    parse_dot ['é', 'z'] ⟨0, 0, 0⟩ = Except.ok ⟨1, 1, 0⟩ ∧
    parse_dot ['é', 'z'] ⟨3, 0, 0⟩ =
      Except.error "expected any char on end of file" ∧
    Possition.n ⟨3, 3, 0⟩ ≤ utf8Len ['é', 'z'] := by
  refine ⟨?_, ?_, ?_⟩
  · exact (atom_bound_amended ['é', 'z'] [] ⟨0, 0, 0⟩).1 (by decide)
  · exact (atom_bound_amended ['é', 'z'] [] ⟨3, 0, 0⟩).2.1 (by decide)
  · exact (atom_bound_amended ['é', 'z'] ['é', 'z'] ⟨0, 0, 0⟩).2.2.2 (by decide)
      ⟨3, 3, 0⟩ rfl

--------------------------------------------------------------------
--  C1: the Or evaluator
--------------------------------------------------------------------

/-- Maximum failure position over a list of errors (0 on the empty
list; all lists handed to it are nonempty). -/
def errsMaxN (errs : List Error) : Nat :=
  (errs.map (fun er => er.pos.n)).foldr max 0

/-- Helper: `deep_err` on a populated accumulator, with the option pushed
outside the comparison. -/
theorem deep_err_some (a er : Error) :
    deep_err (some a) er = some (if a.pos.n > er.pos.n then a else er) := by
  by_cases h : a.pos.n > er.pos.n <;> simp [deep_err, h]

/-- Helper: the loop of `parse_or` with a populated accumulator and all remaining
alternatives failing returns an error at the deepest position among
the accumulator and the failures. -/
theorem parseOrAux_all_fail (p : Expression → Status → PResult) (st : Status)
    (es : List Expression) (errs : List Error)
    (hall : List.Forall₂ (fun e er => p e st = PResult.err er) es errs) :
    ∀ a : Error, ∃ er2,
      parseOrAux p es (some a) st = PResult.err er2 ∧
      er2.pos.n = max a.pos.n (errsMaxN errs) := by
  induction hall with
  | nil =>
    intro a
    exact ⟨a, rfl, by simp [errsMaxN]⟩
  | cons he _htl ih =>
    intro a
    rename_i e er tle tler
    obtain ⟨er2, h1, h2⟩ := ih (if a.pos.n > er.pos.n then a else er)
    refine ⟨er2, ?_, ?_⟩
    · simp only [parseOrAux, he]
      rw [deep_err_some]
      exact h1
    · rw [h2]
      have hif : (if a.pos.n > er.pos.n then a else er).pos.n =
          max a.pos.n er.pos.n := by
        split <;> omega
      rw [hif]
      simp only [errsMaxN, List.map_cons, List.foldr_cons]
      omega

/-- Helper: the loop of `parse_or` returns the first success, regardless of the
accumulated error. -/
theorem parseOrAux_first_ok (p : Expression → Status → PResult) (st st2 : Status)
    (e : Expression) (es2 : List Expression)
    (hok : p e st = PResult.ok st2) :
    ∀ (es1 : List Expression) (acc : Option Error),
    (∀ e1 ∈ es1, ∃ er, p e1 st = PResult.err er) →
    parseOrAux p (es1 ++ e :: es2) acc st = PResult.ok st2 := by
  intro es1
  induction es1 with
  | nil =>
    intro acc _
    simp [parseOrAux, hok]
  | cons e1 tl ih =>
    intro acc hfail
    obtain ⟨er, her⟩ := hfail e1 (by simp)
    simp only [List.cons_append, parseOrAux, her]
    exact ih (deep_err acc er) (fun e2 he2 => hfail e2 (by simp [he2]))

/-- C1: when every alternative of an `Or` fails, the returned error's
position `n` is the maximum of the failure positions over all
alternatives; when some alternative succeeds, the `Or` returns the
status of the first succeeding alternative in left-to-right order
(`src/parser/expression/mod.rs` lines 166-188). -/
theorem or_evaluator_spec (f : Nat) (rs : SetOfRules) (txt : List Char)
    (es : List Expression) (st : Status) :
    (∀ errs : List Error, es ≠ [] →
      List.Forall₂ (fun e er => parsePart f rs txt e st = PResult.err er) es errs →
      ∃ er2, parsePart (f + 1) rs txt (Expression.orE es) st = PResult.err er2 ∧
        er2.pos.n = errsMaxN errs) ∧
    (∀ (es1 : List Expression) (e : Expression) (es2 : List Expression) (st2 : Status),
      es = es1 ++ e :: es2 →
      (∀ e1 ∈ es1, ∃ er, parsePart f rs txt e1 st = PResult.err er) →
      parsePart f rs txt e st = PResult.ok st2 →
      parsePart (f + 1) rs txt (Expression.orE es) st = PResult.ok st2) := by
  constructor
  · intro errs hne hall
    match es, errs, hall with
    | e :: tle, er :: tler, List.Forall₂.cons he htl =>
      obtain ⟨er2, h1, h2⟩ :=
        parseOrAux_all_fail (fun e2 s => parsePart f rs txt e2 s) st tle tler htl er
      refine ⟨er2, ?_, ?_⟩
      · simp only [parsePart, parseOrAux, he]
        exact h1
      · rw [h2]
        simp only [errsMaxN, List.map_cons, List.foldr_cons]
  · intro es1 e es2 st2 heq hfail hok
    subst heq
    simp only [parsePart]
    exact parseOrAux_first_ok (fun e2 s => parsePart f rs txt e2 s) st st2 e es2
      hok es1 none hfail

/-- Witness for C1: `Or ["b", "ax"]` on input `"ay"` — both fail, the
first at `n = 0`, the second at `n = 1`; the merged error sits at the
deeper `n = 1`.  `Or ["b", "a"]` on the same input returns the first
succeeding alternative's status. -/
theorem or_evaluator_spec_witness :
    (∃ er2, parsePart 4 [] "ay".toList
        (Expression.orE [Expression.simple (Atom.literal ['b']),
                         Expression.simple (Atom.literal ['a', 'x'])]) ⟨⟨0, 0, 0⟩⟩ =
        PResult.err er2 ∧
      er2.pos.n = errsMaxN [{ pos := ⟨0, 0, 0⟩, descr := "LiteralMismatch" },
                            { pos := ⟨1, 1, 0⟩, descr := "LiteralMismatch" }]) ∧
    parsePart 4 [] "ay".toList
        (Expression.orE [Expression.simple (Atom.literal ['b']),
                         Expression.simple (Atom.literal ['a'])]) ⟨⟨0, 0, 0⟩⟩ =
      PResult.ok ⟨⟨1, 1, 0⟩⟩ := by
  constructor
  · exact (or_evaluator_spec 3 [] "ay".toList
      [Expression.simple (Atom.literal ['b']),
       Expression.simple (Atom.literal ['a', 'x'])] ⟨⟨0, 0, 0⟩⟩).1
      [{ pos := ⟨0, 0, 0⟩, descr := "LiteralMismatch" },
       { pos := ⟨1, 1, 0⟩, descr := "LiteralMismatch" }]
      (by simp)
      (List.Forall₂.cons (by decide) (List.Forall₂.cons (by decide) List.Forall₂.nil))
  · exact (or_evaluator_spec 3 [] "ay".toList
      [Expression.simple (Atom.literal ['b']),
       Expression.simple (Atom.literal ['a'])] ⟨⟨0, 0, 0⟩⟩).2
      [Expression.simple (Atom.literal ['b'])]
      (Expression.simple (Atom.literal ['a'])) [] ⟨⟨1, 1, 0⟩⟩ rfl
      (by intro e1 he1
          simp only [List.mem_singleton] at he1
          subst he1
          exact ⟨{ pos := ⟨0, 0, 0⟩, descr := "LiteralMismatch" }, by decide⟩)
      (by decide)

--------------------------------------------------------------------
--  C2: the Repeat evaluator
--------------------------------------------------------------------

/-- Counterexample to C2: `Repeat("a", min 0, max 0)` on input `"a"`.
The claim demands success consuming nothing (`k ≤ max = 0`), but
`touch_max_bound` (`counter + 1 == max`) can never fire for `max = 0`,
so the loop greedily consumes the `"a"` and returns at `n = 1`. -/
theorem repeat_max_zero_counterexample :
    parsePart 10 [] "a".toList
      (Expression.repeatE (Expression.simple (Atom.literal ['a'])) 0 (some 0))
      ⟨⟨0, 0, 0⟩⟩ = PResult.ok ⟨⟨1, 1, 0⟩⟩ ∧
    parsePart 10 [] "a".toList
      (Expression.repeatE (Expression.simple (Atom.literal ['a'])) 0 (some 0))
      ⟨⟨0, 0, 0⟩⟩ ≠ PResult.ok ⟨⟨0, 0, 0⟩⟩ := by
  exact ⟨rfl, by decide⟩

/-- Result of the instrumented repeat loop: a success also reports the
number of successful inner iterations (the loop counter of the
source). -/
inductive RepResult where
  | ok : Status → Nat → RepResult
  | err : Error → RepResult
  | timeout : RepResult
  | panicked : RepResult
deriving DecidableEq, Repr

/-- Instrumented clone of `repeatLoopAux` reporting the iteration
count; `repeatLoopCount_erase` shows it projects onto the evaluator's
loop. -/
def repeatLoopCount (p : Status → PResult) (mn : Nat) (mx : Option Nat) :
    Nat → Status → Nat → RepResult
  | 0, _, _ => .timeout
  | Nat.succ g, st, i =>
    match p st, decide (mn ≤ i), touchMaxBound mx i with
    | .err _, true, _ => .ok st i
    | .err _, false, _ => .err (Error.from_status st "repeat")
    | .ok st2, _, false => repeatLoopCount p mn mx g st2 (i + 1)
    | .ok st2, _, true => .ok st2 (i + 1)
    | .timeout, _, _ => .timeout
    | .panicked, _, _ => .panicked

/-- Forget the iteration count. -/
def repErase : RepResult → PResult
  | .ok st _ => .ok st
  | .err e => .err e
  | .timeout => .timeout
  | .panicked => .panicked

/-- The instrumented loop projects onto the evaluator's loop. -/
theorem repeatLoopCount_erase (p : Status → PResult) (mn : Nat) (mx : Option Nat) :
    ∀ (g : Nat) (st : Status) (i : Nat),
    repeatLoopAux p mn mx g st i = repErase (repeatLoopCount p mn mx g st i) := by
  intro g
  induction g with
  | zero =>
    intro st i
    rfl
  | succ g ih =>
    intro st i
    simp only [repeatLoopAux, repeatLoopCount]
    cases hp : p st <;> cases hmn : decide (mn ≤ i) <;>
        cases hmx : touchMaxBound mx i <;>
      simp [repErase, ih]

/-- Count bounds of the instrumented loop: a successful run from
counter `i` ends with a count `k ≥ i` that either reached the minimum
or equals the maximum; and if a maximum `m` lies ahead (`i + 1 ≤ m`)
the count never exceeds it. -/
theorem repeatLoopCount_bounds (p : Status → PResult) (mn : Nat) (mx : Option Nat) :
    ∀ (g i : Nat) (st st2 : Status) (k : Nat),
    repeatLoopCount p mn mx g st i = RepResult.ok st2 k →
    i ≤ k ∧ (mn ≤ k ∨ ∃ m, mx = some m ∧ k = m) ∧
    (∀ m, mx = some m → i + 1 ≤ m → k ≤ m) := by
  intro g
  induction g with
  | zero =>
    intro i st st2 k h
    simp [repeatLoopCount] at h
  | succ g ih =>
    intro i st st2 k h
    simp only [repeatLoopCount] at h
    split at h
    · next _a _hp hmn =>
      cases h
      refine ⟨Nat.le_refl i, Or.inl (of_decide_eq_true hmn), ?_⟩
      intro m _ hm
      omega
    · cases h
    · next _st3 _hp hmx =>
      obtain ⟨h1, h2, h3⟩ := ih (i + 1) _ st2 k h
      refine ⟨by omega, h2, ?_⟩
      intro m hmx2 hm
      have hne : ¬ (i + 1 = m) := by
        rw [hmx2] at hmx
        simpa [touchMaxBound] using hmx
      exact h3 m hmx2 (by omega)
    · next _st3 _hp hmx =>
      cases h
      rcases mx with _ | m
      · simp [touchMaxBound] at hmx
      · have hm : i + 1 = m := by
          simpa [touchMaxBound] using hmx
        refine ⟨by omega, Or.inr ⟨m, rfl, hm⟩, ?_⟩
        intro m2 hm2 _
        cases hm2
        omega
    · cases h
    · cases h

/-- Iteration helper for the inner parser: `iterP p j st` is the
status after `j` successful applications of `p`, or the first
non-success. -/
def iterP (p : Status → PResult) : Nat → Status → PResult
  | 0, st => .ok st
  | Nat.succ j, st =>
    match p st with
    | .ok st2 => iterP p j st2
    | r => r

/-- If the inner parser succeeds `k` times and then fails, the repeat
loop returns success whenever `k` meets the minimum (given enough
iteration fuel). -/
theorem repeatLoopAux_stops_ok (p : Status → PResult) (mn : Nat) (mx : Option Nat) :
    ∀ (k g i : Nat) (st s : Status) (er : Error),
    iterP p k st = PResult.ok s → p s = PResult.err er →
    mn ≤ i + k → k + 1 ≤ g →
    ∃ st2, repeatLoopAux p mn mx g st i = PResult.ok st2 := by
  intro k
  induction k with
  | zero =>
    intro g i st s er h1 h2 h3 h4
    have hs : st = s := by simpa [iterP] using h1
    subst hs
    match g, h4 with
    | g1 + 1, _ =>
      refine ⟨st, ?_⟩
      simp only [repeatLoopAux, h2, decide_eq_true (show mn ≤ i by omega)]
  | succ k ih =>
    intro g i st s er h1 h2 h3 h4
    cases hp : p st with
    | ok st1 =>
      have h1b : iterP p k st1 = PResult.ok s := by
        simpa [iterP, hp] using h1
      match g, h4 with
      | g1 + 1, _ =>
        cases hmx : touchMaxBound mx i with
        | true =>
          exact ⟨st1, by simp [repeatLoopAux, hp, hmx]⟩
        | false =>
          obtain ⟨st2, hst2⟩ := ih g1 (i + 1) st1 s er h1b h2 (by omega) (by omega)
          exact ⟨st2, by simp [repeatLoopAux, hp, hmx, hst2]⟩
    | err er2 => simp [iterP, hp] at h1
    | timeout => simp [iterP, hp] at h1
    | panicked => simp [iterP, hp] at h1

/-- C2 amended: the successful iteration count `k` of
`Repeat(e, min, max)` satisfies `min ≤ k` when `max` is absent, and
`min ≤ k ≤ max` when a sane maximum `max ≥ 1`, `max ≥ min` is
present — for `max = 0` the `counter + 1 == max` test never fires and
the bound fails (see the counterexample); and whenever the inner
expression stops succeeding after `k ≥ min` iterations (within the
fuel), the evaluator returns success. -/
theorem repeat_evaluator_amended (f : Nat) (rs : SetOfRules) (txt : List Char)
    (e : Expression) (mn : Nat) (mx : Option Nat) (st : Status) :
    (parsePart (f + 1) rs txt (Expression.repeatE e mn mx) st =
      repErase (repeatLoopCount (fun s => parsePart f rs txt e s) mn mx (f + 1) st 0)) ∧
    (∀ st2 k,
      repeatLoopCount (fun s => parsePart f rs txt e s) mn mx (f + 1) st 0 =
        RepResult.ok st2 k →
      (mx = none → mn ≤ k) ∧
      (∀ m, mx = some m → mn ≤ m → 1 ≤ m → mn ≤ k ∧ k ≤ m)) ∧
    (∀ (k : Nat) (s : Status) (er : Error),
      iterP (fun s2 => parsePart f rs txt e s2) k st = PResult.ok s →
      parsePart f rs txt e s = PResult.err er →
      mn ≤ k → k + 1 ≤ f + 1 →
      ∃ st2, parsePart (f + 1) rs txt (Expression.repeatE e mn mx) st =
        PResult.ok st2) := by
  refine ⟨?_, ?_, ?_⟩
  · simp only [parsePart]
    exact repeatLoopCount_erase (fun s => parsePart f rs txt e s) mn mx (f + 1) st 0
  · intro st2 k h
    have hb := repeatLoopCount_bounds (fun s => parsePart f rs txt e s) mn mx
      (f + 1) 0 st st2 k h
    constructor
    · intro hnone
      rcases hb.2.1 with hl | ⟨m, hm, _⟩
      · exact hl
      · rw [hnone] at hm
        cases hm
    · intro m hm hmn h1
      refine ⟨?_, hb.2.2 m hm (by omega)⟩
      rcases hb.2.1 with hl | ⟨m2, hm2, hk⟩
      · exact hl
      · rw [hm] at hm2
        cases hm2
        omega
  · intro k s er h1 h2 h3 h4
    obtain ⟨st2, hst2⟩ := repeatLoopAux_stops_ok (fun s2 => parsePart f rs txt e s2)
      mn mx k (f + 1) 0 st s er h1 h2 (by omega) h4
    refine ⟨st2, ?_⟩
    simp only [parsePart]
    exact hst2

/-- Witness for C2's amended theorem: `Repeat("a", min 1, max 2)` on
input `"aa"` — the instrumented loop succeeds with count 2, the
bounds give `1 ≤ 2 ≤ 2`, and the stop-after-2 hypothesis yields
success of the evaluator. -/
theorem repeat_evaluator_amended_witness :
    (1 ≤ 2 ∧ 2 ≤ 2) ∧
    (∃ st2, parsePart 6 [] "aa".toList
        (Expression.repeatE (Expression.simple (Atom.literal ['a'])) 1 (some 2))
        ⟨⟨0, 0, 0⟩⟩ = PResult.ok st2) := by
  constructor
  · exact ((repeat_evaluator_amended 5 [] "aa".toList
      (Expression.simple (Atom.literal ['a'])) 1 (some 2) ⟨⟨0, 0, 0⟩⟩).2.1
      ⟨⟨2, 2, 0⟩⟩ 2 rfl).2 2 rfl (by omega) (by omega)
  · exact (repeat_evaluator_amended 5 [] "aa".toList
      (Expression.simple (Atom.literal ['a'])) 1 (some 2) ⟨⟨0, 0, 0⟩⟩).2.2
      2 ⟨⟨2, 2, 0⟩⟩ { pos := ⟨2, 2, 0⟩, descr := "LiteralMismatch" } rfl rfl
      (by omega) (by omega)

--------------------------------------------------------------------
--  C3: Repeat with a non-advancing inner expression
--------------------------------------------------------------------

/-- On input `"a"`, evaluating `Not("z")` at any status either
succeeds *without advancing* (the literal `"z"` never matches, so the
negation returns the input status unchanged) or runs out of fuel. -/
theorem not_lit_z_ok_or_timeout :
    ∀ (f : Nat) (s : Status),
    parsePart f [] "a".toList
        (Expression.notE (Expression.simple (Atom.literal ['z']))) s =
      PResult.ok s ∨
    parsePart f [] "a".toList
        (Expression.notE (Expression.simple (Atom.literal ['z']))) s =
      PResult.timeout := by
  intro f s
  match f with
  | 0 => exact Or.inr rfl
  | 1 => exact Or.inr rfl
  | f2 + 2 =>
    left
    have hz : literalWalk ['a'] ['z'] s.pos =
        PResult.err { pos := s.pos, descr := "LiteralMismatch" } := by
      rcases s with ⟨⟨n, col, row⟩⟩
      match n with
      | 0 => rfl
      | n + 1 =>
        simp [literalWalk, List.getElem?_cons_succ, List.getElem?_nil]
    simp [parsePart, atomParse, hz]

/-- The repeat loop never returns when the inner parser either
succeeds without moving the status or times out, and no maximum is
set: by induction on the iteration fuel, every run exhausts it. -/
theorem repeatLoopAux_no_advance_timeout (p : Status → PResult)
    (hp : ∀ s, p s = PResult.ok s ∨ p s = PResult.timeout) (mn : Nat) :
    ∀ (g : Nat) (s : Status) (i : Nat),
    repeatLoopAux p mn none g s i = PResult.timeout := by
  intro g
  induction g with
  | zero =>
    intro s i
    rfl
  | succ g ih =>
    intro s i
    rcases hp s with h | h
    · simp only [repeatLoopAux, h, touchMaxBound]
      exact ih s (i + 1)
    · simp [repeatLoopAux, h]

/-- C3 refuted (the code lacks the guard the claim describes):
`parse_repeat` never checks whether an iteration advanced the
position.  With inner expression `Not("z")` on input `"a"` — an inner
expression that succeeds without advancing — and no maximum, the loop
never terminates: the fuelled evaluator returns `timeout` for *every*
fuel value and every starting status, instead of the result the claim
demands. -/
theorem repeat_no_advance_diverges (f : Nat) (st : Status) :
    parsePart f [] "a".toList
      (Expression.repeatE
        (Expression.notE (Expression.simple (Atom.literal ['z']))) 0 none)
      st = PResult.timeout := by
  match f with
  | 0 => rfl
  | f2 + 1 =>
    simp only [parsePart]
    exact repeatLoopAux_no_advance_timeout
      (fun s => parsePart f2 [] "a".toList
        (Expression.notE (Expression.simple (Atom.literal ['z']))) s)
      (not_lit_z_ok_or_timeout f2) 0 (f2 + 1) st 0

--------------------------------------------------------------------
--  C9: rules_from_peg on `main = "hello"`
--------------------------------------------------------------------

/-- The AST shape the bootstrap grammar produces for the one-rule
grammar `main = "hello"` (after the front end; the exact leaves under
the `rule` node are irrelevant, because `process_rule` never looks at
them). -/
def astHello : Node :=
  Node.rule "main" [Node.rule "grammar" [Node.rule "rule"
    [Node.rule "symbol" [Node.val "main"], Node.val "=",
     Node.rule "expr" [Node.rule "literal"
       [Node.val "\"", Node.val "hello", Node.val "\""]]]]]

/-- C9 refuted (the code contradicts its own test
`peg::test::parse_literal`): `process_rule` is a stub that ignores the
rule's `symbol` and `expr` children and always registers
`main ↦ Literal("testing")`.  Compiling the AST of `main = "hello"`
therefore yields a rule set that *rejects* the input `"hello"`
(literal mismatch at `n = 0`) and accepts `"testing"` instead. -/
theorem rules_from_ast_stub_rejects_hello :
    rules_from_ast astHello =
      Except.ok [("main", Expression.simple (Atom.literal "testing".toList))] ∧
    parsePart 10 [("main", Expression.simple (Atom.literal "testing".toList))]
      "hello".toList (Expression.ruleName "main") ⟨⟨0, 0, 0⟩⟩ =
      PResult.err { pos := ⟨0, 0, 0⟩, descr := "LiteralMismatch" } ∧
    parsePart 10 [("main", Expression.simple (Atom.literal "testing".toList))]
      "testing".toList (Expression.ruleName "main") ⟨⟨0, 0, 0⟩⟩ =
      PResult.ok ⟨⟨7, 7, 0⟩⟩ := by
  refine ⟨?_, by decide, by decide⟩
  have h0 : Node.compact astHello =
      Node.rule "main" [Node.rule "grammar" [Node.rule "rule"
        [Node.rule "symbol" [Node.val "main"], Node.val "=",
         Node.rule "expr" [Node.rule "literal" [Node.val "\"hello\""]]]]] := by
    simp [astHello, Node.compact, compactList, mergeVals]
  have h1 : Node.prune ["_"]
      (Node.rule "main" [Node.rule "grammar" [Node.rule "rule"
        [Node.rule "symbol" [Node.val "main"], Node.val "=",
         Node.rule "expr" [Node.rule "literal" [Node.val "\"hello\""]]]]]) =
      Node.rule "main" [Node.rule "grammar" [Node.rule "rule"
        [Node.rule "symbol" [Node.val "main"], Node.val "=",
         Node.rule "expr" [Node.rule "literal" [Node.val "\"hello\""]]]]] := by
    simp [Node.prune, pruneList]
  have h2 : process_node
      (Node.rule "main" [Node.rule "grammar" [Node.rule "rule"
        [Node.rule "symbol" [Node.val "main"], Node.val "=",
         Node.rule "expr" [Node.rule "literal" [Node.val "\"hello\""]]]]]) =
      Except.ok (ExprOrRule.rul
        [("main", Expression.simple (Atom.literal "testing".toList))]) := by
    simp [process_node, process_peg_rule, passthrow, process_rule]
  simp only [rules_from_ast]
  rw [h0, h1, h2]
  rfl

end Dynparser

